import Mathlib

/-!
Verification of the key codec in `gcloud_core/datastore/__init__.py`.

Strings are modelled as lists of Unicode code points (`List Nat`); byte
strings as lists of byte values (`List Nat`, each `< 256`).  Python values
that may be either `str` or `int` (the elements of a datastore key's
`flat_path`, and the tokens handed to `Client().key`) are modelled by `Atom`.
Fallible Python functions are modelled as `Except PyErr _`, where each
`PyErr` constructor corresponds to one Python exception class.

The base64 machinery (`base64.urlsafe_b64encode`, `base64.urlsafe_b64decode`
backed by CPython's lenient `binascii.a2b_base64`) and the strict UTF-8
decoder backing `bytes.decode()` are embedded byte-for-byte from their
CPython semantics, since the repository's behaviour on malformed resource
ids depends on them.
-/

deriving instance DecidableEq for Except

/-- Python exception classes that can arise on the modelled paths.
`invalidKey` is `InvalidKeyException` (a `ValueError` subclass),
`invalidId` is `InvalidIdException` (a `ValueError` subclass) carrying its
message, `unicodeDecode` is `UnicodeDecodeError` and `unicodeEncode` is
`UnicodeEncodeError` (both `ValueError` subclasses), and `keyError` is
`KeyError` (not a `ValueError`). -/
inductive PyErr where
  | invalidKey
  | invalidId (msg : List Nat)
  | valueError
  | typeError
  | attributeError
  | indexError
  | unicodeDecode
  | unicodeEncode
  | keyError
deriving DecidableEq

/-- A Python value that is either a `str` or an `int`. -/
inductive Atom where
  | s (v : List Nat)
  | i (n : Int)
deriving DecidableEq

/-- Code points of a Lean string literal (used only for ASCII literals). -/
def str2c (s : String) : List Nat := s.data.map Char.toNat

/-- SEPARATOR = chr(30) in the source. -/
def SEPARATOR : Nat := 30

/-- INTMARK models the source's integer tag constant chr(31). -/
def INTMARK : Nat := 31

/-- Decimal digits of `n` (most significant first, `0 ↦ "0"`), fuel-driven so
that it reduces by `decide`.  Models Python `str` on a non-negative `int`. -/
def natDigitsGo : Nat → Nat → List Nat → List Nat
  | 0, _, acc => acc
  | fuel + 1, n, acc =>
    if n < 10 then (48 + n) :: acc
    else natDigitsGo fuel (n / 10) ((48 + n % 10) :: acc)

/-- Decimal digit string of a natural number. -/
def natDigits (n : Nat) : List Nat := natDigitsGo (n + 1) n []

/-- Python `str(n)` for an `int` `n` (code points). -/
def intRepr (n : Int) : List Nat :=
  if n < 0 then 45 :: natDigits n.natAbs else natDigits n.toNat

/-- Python `str(x)` for an `Atom`. -/
def strOfAtom : Atom → List Nat
  | .s v => v
  | .i n => intRepr n

/-- Python truthiness of an `Atom` (`''` and `0` are falsy). -/
def pyTruthyAtom : Atom → Bool
  | .s v => !v.isEmpty
  | .i n => n != 0

/-- ASCII whitespace stripped by Python `int()` from both ends. -/
def pySpace (c : Nat) : Bool := c == 32 || c == 9 || c == 10 || c == 11 || c == 12 || c == 13

/-- Python `str.strip()` restricted to ASCII whitespace. -/
def stripWs (l : List Nat) : List Nat :=
  ((l.dropWhile pySpace).reverse.dropWhile pySpace).reverse

/-- ASCII decimal digit test. -/
def isDigit (c : Nat) : Bool := 48 ≤ c && c ≤ 57

/-- Digit accumulation for `parseUDigits`, enforcing Python's underscore
rules for `int()` literals: an underscore must be surrounded by digits. -/
def parseUDigitsGo : Nat → List Nat → Option Nat
  | acc, [] => some acc
  | acc, [c] => if isDigit c then some (acc * 10 + (c - 48)) else none
  | acc, c :: d :: rest =>
    if isDigit c then parseUDigitsGo (acc * 10 + (c - 48)) (d :: rest)
    else if c = 95 then
      if isDigit d then parseUDigitsGo (acc * 10 + (d - 48)) rest else none
    else none

/-- Parse a non-empty run of ASCII decimal digits with optional single
underscores between digits (the digit part of a Python `int()` literal). -/
def parseUDigits : List Nat → Option Nat
  | [] => none
  | c :: rest => if isDigit c then parseUDigitsGo (c - 48) rest else none

/-- Python `int(s)` on a text `s` (ASCII whitespace, optional sign, decimal
digits with underscores; non-ASCII digit forms are outside the model's
scope).  `none` models the raised `ValueError`. -/
def pyIntParse (l : List Nat) : Option Int :=
  match stripWs l with
  | [] => none
  | c :: rest =>
    if c = 43 then (parseUDigits rest).map Int.ofNat
    else if c = 45 then (parseUDigits rest).map fun n => -(Int.ofNat n)
    else (parseUDigits (c :: rest)).map Int.ofNat

/-- Pair up `zip(a, a)` over an iterator of the flat path: consecutive
elements become pairs, a lone trailing element is dropped. -/
def toPairs : List Atom → List (Atom × Atom)
  | a :: b :: rest => (a, b) :: toPairs rest
  | _ => []

/-- Tagged rendering of `key_or_id` in the encode loop: an `int` becomes
`INTPREFIX + str(n)`, a `str` is used verbatim. -/
def idEnc : Atom → List Nat
  | .s v => v
  | .i n => 31 :: intRepr n

/-- The encode loop of `get_resource_id_from_key`: for each pair, `kind`
is `str(pair[0])`, the pair is rejected with `InvalidKeyException` when
`not (kind and key_or_id)`, and otherwise contributes
`kind + SEPARATOR + key_or_id`. -/
def processPairs : List (Atom × Atom) → Except PyErr (List (List Nat))
  | [] => .ok []
  | (a, b) :: rest =>
    if strOfAtom a = [] ∨ pyTruthyAtom b = false then .error .invalidKey
    else
      match processPairs rest with
      | .error e => .error e
      | .ok l => .ok ((strOfAtom a ++ 30 :: idEnc b) :: l)

/-- `SEPARATOR.join(pair_strings)`. -/
def sepJoin : List (List Nat) → List Nat
  | [] => []
  | [x] => x
  | x :: y :: rest => x ++ 30 :: sepJoin (y :: rest)

/-- `.encode('ascii')`: identity on code points `< 128`, otherwise raises
`UnicodeEncodeError`. -/
def encodeAscii (l : List Nat) : Except PyErr (List Nat) :=
  if l.all fun c => decide (c < 128) then .ok l else .error .unicodeEncode

/-- The URL-safe base64 alphabet character for a 6-bit value
(`base64.urlsafe_b64encode`'s alphabet `A-Za-z0-9-_`). -/
def enc64 (v : Nat) : Nat :=
  if v < 26 then 65 + v
  else if v < 52 then 97 + (v - 26)
  else if v < 62 then 48 + (v - 52)
  else if v = 62 then 45
  else 95

/-- `base64.urlsafe_b64encode`: 3-byte groups to 4 alphabet characters, a
trailing group of 1 or 2 bytes padded with `=` (61). -/
def b64encodePad : List Nat → List Nat
  | [] => []
  | [a] => [enc64 (a / 4), enc64 (a % 4 * 16), 61, 61]
  | [a, b] => [enc64 (a / 4), enc64 (a % 4 * 16 + b / 16), enc64 (b % 16 * 4), 61]
  | a :: b :: c :: rest =>
    enc64 (a / 4) :: enc64 (a % 4 * 16 + b / 16) :: enc64 (b % 16 * 4 + c / 64) ::
      enc64 (c % 64) :: b64encodePad rest

/-- The standard-alphabet decode table of `binascii.a2b_base64`
(`A-Z`, `a-z`, `0-9`, `+`, `/`); `none` marks a non-alphabet character. -/
def b64table (c : Nat) : Option Nat :=
  if 65 ≤ c ∧ c ≤ 90 then some (c - 65)
  else if 97 ≤ c ∧ c ≤ 122 then some (c - 97 + 26)
  else if 48 ≤ c ∧ c ≤ 57 then some (c - 48 + 52)
  else if c = 43 then some 62
  else if c = 47 then some 63
  else none

/-- The character translation done by `base64.urlsafe_b64decode`:
`-` ↦ `+` and `_` ↦ `/`. -/
def b64translate (c : Nat) : Nat := if c = 45 then 43 else if c = 95 then 47 else c

/-- CPython's `binascii.a2b_base64` in its default non-strict mode, as a
state machine over `(quad_pos, leftchar, pads)`: non-alphabet characters are
skipped; `=` is skipped while `quad_pos < 2`, and once `quad_pos + pads`
reaches 4 decoding stops successfully; at end of input `quad_pos ≠ 0` is a
`binascii.Error` (either the "1 more than a multiple of 4" error or
"Incorrect padding"), modelled as `none`. -/
def a2b64 : List Nat → Nat → Nat → Nat → Option (List Nat)
  | [], quad, _, _ => if quad = 0 then some [] else none
  | c :: rest, quad, left, pads =>
    if c = 61 then
      if 2 ≤ quad then
        if 4 ≤ quad + (pads + 1) then some []
        else a2b64 rest quad left (pads + 1)
      else a2b64 rest quad left pads
    else
      match b64table c with
      | none => a2b64 rest quad left pads
      | some v =>
        match quad with
        | 0 => a2b64 rest 1 v 0
        | 1 => (a2b64 rest 2 (v % 16) 0).map fun l => (left * 4 + v / 16) :: l
        | 2 => (a2b64 rest 3 (v % 4) 0).map fun l => (left * 16 + v / 4) :: l
        | _ => (a2b64 rest 0 0 0).map fun l => (left * 64 + v) :: l

/-- One 2-byte UTF-8 sequence with leading byte `b` (`0xC2..0xDF`):
consume a continuation byte and yield the code point. -/
def utf8Two (b : Nat) : List Nat → Option (Nat × List Nat)
  | b1 :: rest1 =>
    if 128 ≤ b1 ∧ b1 ≤ 191 then some ((b - 192) * 64 + (b1 - 128), rest1) else none
  | [] => none

/-- One 3-byte UTF-8 sequence with leading byte `b` (`0xE0..0xEF`): the
first continuation range depends on `b` (no overlongs for `0xE0`, no
surrogates for `0xED`). -/
def utf8Three (b : Nat) : List Nat → Option (Nat × List Nat)
  | b1 :: b2 :: rest2 =>
    if (if b = 224 then 160 ≤ b1 ∧ b1 ≤ 191
        else if b = 237 then 128 ≤ b1 ∧ b1 ≤ 159
        else 128 ≤ b1 ∧ b1 ≤ 191) ∧ 128 ≤ b2 ∧ b2 ≤ 191 then
      some ((b - 224) * 4096 + (b1 - 128) * 64 + (b2 - 128), rest2)
    else none
  | _ => none

/-- One 4-byte UTF-8 sequence with leading byte `b` (`0xF0..0xF4`): the
first continuation range depends on `b` (no overlongs for `0xF0`, nothing
above U+10FFFF for `0xF4`). -/
def utf8Four (b : Nat) : List Nat → Option (Nat × List Nat)
  | b1 :: b2 :: b3 :: rest3 =>
    if (if b = 240 then 144 ≤ b1 ∧ b1 ≤ 191
        else if b = 244 then 128 ≤ b1 ∧ b1 ≤ 143
        else 128 ≤ b1 ∧ b1 ≤ 191) ∧ (128 ≤ b2 ∧ b2 ≤ 191) ∧ 128 ≤ b3 ∧ b3 ≤ 191 then
      some ((b - 240) * 262144 + (b1 - 128) * 4096 + (b2 - 128) * 64 + (b3 - 128), rest3)
    else none
  | _ => none

/-- Decode one UTF-8 scalar from the head of a byte list (strict mode, as
Python `bytes.decode()`): rejects stray continuation bytes (`0x80..0xBF`),
the always-invalid `0xC0`, `0xC1` and `0xF5..0xFF`, overlong forms and
surrogates.  Returns the code point and the remaining bytes. -/
def utf8Step : List Nat → Option (Nat × List Nat)
  | [] => none
  | b :: rest =>
    if b < 128 then some (b, rest)
    else if 194 ≤ b ∧ b ≤ 223 then utf8Two b rest
    else if 224 ≤ b ∧ b ≤ 239 then utf8Three b rest
    else if 240 ≤ b ∧ b ≤ 244 then utf8Four b rest
    else none

/-- Iterate `utf8Step` over the whole byte list.  `utf8Step` consumes at
least one byte per scalar, so fuel equal to the list length suffices; the
fuel keeps the recursion structural so that it reduces by `decide`. -/
def utf8Go : Nat → List Nat → Option (List Nat)
  | _, [] => some []
  | 0, _ :: _ => none
  | fuel + 1, b :: rest =>
    match utf8Step (b :: rest) with
    | none => none
    | some (cp, rest2) => (utf8Go fuel rest2).map fun l => cp :: l

/-- Strict UTF-8 decoding of a byte list into code points, as done by
Python `bytes.decode()`. -/
def utf8Decode (l : List Nat) : Option (List Nat) := utf8Go l.length l

/-- Python `text.split(sep)` for a single-character separator: splitting the
empty text yields `[""]`, and `n` separators yield `n + 1` (possibly empty)
fields. -/
def pySplit (sep : Nat) : List Nat → List (List Nat)
  | [] => [[]]
  | c :: rest =>
    match pySplit sep rest with
    | [] => [[]]
    | t :: ts => if c = sep then [] :: t :: ts else (c :: t) :: ts

/-- One iteration of the decode loop over a split token `bit`:
`bit[0]` raises `IndexError` on an empty token; a token starting with the
integer tag is replaced by `int(bit[1:])`, whose failure is a raw
`ValueError`. -/
def bitAtom : List Nat → Except PyErr Atom
  | [] => .error .indexError
  | c :: cs =>
    if c = 31 then
      match pyIntParse cs with
      | none => .error .valueError
      | some n => .ok (.i n)
    else .ok (.s (c :: cs))

/-- The decode loop of `get_key_from_resource_id` over all split tokens. -/
def processBits : List (List Nat) → Except PyErr (List Atom)
  | [] => .ok []
  | bit :: rest =>
    match bitAtom bit with
    | .error e => .error e
    | .ok a =>
      match processBits rest with
      | .error e => .error e
      | .ok l => .ok (a :: l)

/-- Padding restoration at the top of `get_key_from_resource_id`: append
`=` characters until the length is a multiple of 4. -/
def padResource (rid : List Nat) : List Nat :=
  if rid.length % 4 = 0 then rid
  else rid ++ List.replicate (4 - rid.length % 4) 61

/-- Message of the `InvalidIdException` raised when base64 decoding fails. -/
def msgDecode : List Nat := str2c "Could not base64 decode resource_id"

/-- `get_resource_id_from_key`, taking the key's `flat_path`: reject an odd
flattened length with `InvalidKeyException`, encode the pairs, join them
with the separator, `.encode('ascii')`, URL-safe base64-encode and remove
every `=` (the source's `replace(b'=', b'')`). -/
def get_resource_id_from_key (path : List Atom) : Except PyErr (List Nat) :=
  if path.length % 2 = 1 then .error .invalidKey
  else
    match processPairs (toPairs path) with
    | .error e => .error e
    | .ok strs =>
      match encodeAscii (sepJoin strs) with
      | .error e => .error e
      | .ok buff => .ok ((b64encodePad buff).filter fun c => c != 61)

/-- The token-producing part of `get_key_from_resource_id` (everything up to
and excluding the external `Client().key(*key_pairs)` call): restore
padding, URL-safe base64-decode (the `str` argument is first ASCII-encoded
by `base64`, raising `ValueError` on non-ASCII input; `binascii.Error` is
caught and re-raised as `InvalidIdException`), UTF-8-decode the bytes
(`UnicodeDecodeError` is not caught), split on the separator and run the
tag-detection loop. -/
def resource_id_tokens (rid : List Nat) : Except PyErr (List Atom) :=
  let padded := padResource rid
  if padded.all fun c => decide (c < 128) then
    match a2b64 (padded.map b64translate) 0 0 0 with
    | none => .error (.invalidId msgDecode)
    | some bytes =>
      match utf8Decode bytes with
      | none => .error .unicodeDecode
      | some text => processBits (pySplit 30 text)
  else .error .valueError

/-- A datastore key as returned by the external collaborator, holding the
positional tokens it was built from. -/
structure DSKey where
  tokens : List Atom
deriving DecidableEq

/-- Modelled from the spec: `ClientHandle.BuildKey(tokens) -> Key` — the
external `Client().key(*key_pairs)` call is not part of this repository;
per the spec it "fails if token count is odd or a token is empty", and its
failure is a `ValueError`-class error. -/
def buildKey (toks : List Atom) : Except PyErr DSKey :=
  if toks.length % 2 = 1 ∨ toks.isEmpty ∨
      toks.any fun a => match a with | .s v => v.isEmpty | .i _ => false then
    .error .valueError
  else .ok ⟨toks⟩

/-- Modelled from the spec: `Key.Kind` is the leaf kind — the kind of the
last pair of the key path (stringified, as kinds are `str`s). -/
def DSKey.kind (k : DSKey) : List Nat :=
  match k.tokens.reverse with
  | _ :: a :: _ => strOfAtom a
  | _ => []

/-- `get_key_from_resource_id` in full: token decoding followed by the
external `Client().key(*key_pairs)` collaborator call. -/
def get_key_from_resource_id (rid : List Nat) : Except PyErr DSKey :=
  match resource_id_tokens rid with
  | .error e => .error e
  | .ok toks => buildKey toks

/-- Message of the `InvalidIdException` raised by `get_entity_by_resource_id`
(`_invalid_id_err % resource_id`): a quote, the resource id itself, then the
tail of the template (code points spelled out to match the source's
`"'%s' is not a valid resource id.'"`). -/
def invalid_id_msg (rid : List Nat) : List Nat :=
  39 :: rid ++ [39, 32, 105, 115, 32, 110, 111, 116, 32, 97, 32, 118, 97, 108,
    105, 100, 32, 114, 101, 115, 111, 117, 114, 99, 101, 32, 105, 100, 46, 39]

/-- Which `PyErr`s the `except (ValueError, AttributeError, IndexError,
TypeError)` clause of `get_entity_by_resource_id` catches:
`InvalidKeyException`, `InvalidIdException`, `binascii.Error`,
`UnicodeDecodeError` and `UnicodeEncodeError` are all `ValueError`
subclasses; `KeyError` is not caught. -/
def isCaught : PyErr → Bool
  | .keyError => false
  | _ => true

/-- The body of the `try` block of `get_entity_by_resource_id`: resolve the
key, validate the leaf kind against `expected_kind` (mismatch raises a raw
`ValueError`), then return the collaborator's lookup result (which may be
`None`, modelled as `Option`). -/
def resolveBody {Entity : Type} (lookup : DSKey → Option Entity)
    (expected_kind rid : List Nat) : Except PyErr (Option Entity) :=
  match get_key_from_resource_id rid with
  | .error e => .error e
  | .ok key => if key.kind = expected_kind then .ok (lookup key) else .error .valueError

/-- `get_entity_by_resource_id`: an empty (falsy) resource id raises a raw
`ValueError` before the `try` block; inside it, any caught error class is
re-raised as `InvalidIdException(_invalid_id_err % resource_id)`. -/
def get_entity_by_resource_id {Entity : Type} (lookup : DSKey → Option Entity)
    (expected_kind rid : List Nat) : Except PyErr (Option Entity) :=
  if rid.isEmpty then .error .valueError
  else
    match resolveBody lookup expected_kind rid with
    | .ok r => .ok r
    | .error e => if isCaught e then .error (.invalidId (invalid_id_msg rid)) else .error e

/-- The `Client` wrapper's `__init__`: the class attribute `ds_client`
starts as `None` (`Option.none`); construction assigns a fresh external
client only when the cached one is falsy, otherwise it leaves the cached
handle in place.  `fresh` stands for the `datastore.Client()` connection
that would be created by this construction. -/
def clientInit (ds_client : Option Nat) (fresh : Nat) : Option Nat :=
  match ds_client with
  | none => some fresh
  | some c => some c

/-- Success test for an `Except` value. -/
def isOkE {ε α : Type} : Except ε α → Bool
  | .ok _ => true
  | .error _ => false

/-- Membership in the URL-safe base64 alphabet `A-Za-z0-9-_` (the only
characters `get_resource_id_from_key` ever emits). -/
def isB64UrlChar (c : Nat) : Bool :=
  (65 ≤ c && c ≤ 90) || (97 ≤ c && c ≤ 122) || (48 ≤ c && c ≤ 57) || c == 45 || c == 95

/-- A kind or string identifier acceptable to the round trip: non-empty,
ASCII (so `.encode('ascii')` succeeds) and free of the separator (30) and
tag-marker (31) bytes. -/
def goodStrB (s : List Nat) : Bool :=
  !s.isEmpty && s.all fun c => decide (c < 128) && c != 30 && c != 31

/-- An identifier acceptable to the round trip: a good string, or an
integer other than 0 (which the encoder's truthiness check rejects). -/
def goodIdB : Atom → Bool
  | .s v => goodStrB v
  | .i n => n != 0

/-- Round-trip-safe key paths: non-empty lists of (kind, identifier) pairs
with good kinds and identifiers. -/
def wellFormedPathB (p : List (List Nat × Atom)) : Bool :=
  !p.isEmpty && p.all fun pr => goodStrB pr.1 && goodIdB pr.2

/-- An identifier well-formed in the sense of the spec's claim: a non-empty
string without bytes 30/31, or any integer (no exclusion of 0). -/
def specIdOkB : Atom → Bool
  | .s v => !v.isEmpty && v.all fun c => c != 30 && c != 31
  | .i _ => true

/-- A key path well-formed in the sense of the spec's round-trip claim
(which constrains strings only, not integer identifiers). -/
def specWellFormedB (p : List (List Nat × Atom)) : Bool :=
  !p.isEmpty &&
    p.all fun pr => (!pr.1.isEmpty && pr.1.all fun c => c != 30 && c != 31) && specIdOkB pr.2

/-- The `flat_path` of the key built from a list of (kind, identifier)
pairs: kinds and identifiers alternating. -/
def flattenPairs : List (List Nat × Atom) → List Atom
  | [] => []
  | (k, idv) :: rest => Atom.s k :: idv :: flattenPairs rest

/-- The per-pair strings the encode loop produces on a well-formed path. -/
def pairStrs : List (List Nat × Atom) → List (List Nat)
  | [] => []
  | (k, idv) :: rest => (k ++ 30 :: idEnc idv) :: pairStrs rest

/-- The flat decoded tokens of a well-formed path: kind texts and (possibly
tagged) identifier texts alternating. -/
def flatToks : List (List Nat × Atom) → List (List Nat)
  | [] => []
  | (k, idv) :: rest => k :: idEnc idv :: flatToks rest

/-! ## Helper lemmas about the decode loop -/

lemma bitAtom_error_cases (b : List Nat) (e : PyErr) (h : bitAtom b = .error e) :
    e = .indexError ∨ e = .valueError := by
  cases b with
  | nil =>
    simp only [bitAtom] at h
    exact .inl (Except.error.injEq .. ▸ h).symm
  | cons c cs =>
    simp only [bitAtom] at h
    by_cases hc : c = 31
    · rw [if_pos hc] at h
      cases hp : pyIntParse cs with
      | none => rw [hp] at h; exact .inr (Except.error.injEq .. ▸ h).symm
      | some n => rw [hp] at h; cases h
    · rw [if_neg hc] at h; cases h

lemma processBits_error_cases (bs : List (List Nat)) (e : PyErr)
    (h : processBits bs = .error e) : e = .indexError ∨ e = .valueError := by
  induction bs with
  | nil => cases h
  | cons b rest ih =>
    simp only [processBits] at h
    cases hb : bitAtom b with
    | error e' =>
      rw [hb] at h
      cases h
      exact bitAtom_error_cases b e hb
    | ok a =>
      rw [hb] at h
      cases hr : processBits rest with
      | error e' => rw [hr] at h; cases h; exact ih hr
      | ok l => rw [hr] at h; cases h

lemma processBits_append_error (xs ys : List (List Nat)) (tok : List Nat) (e : PyErr)
    (hok : ∀ b ∈ xs, isOkE (bitAtom b) = true) (htok : bitAtom tok = .error e) :
    processBits (xs ++ tok :: ys) = .error e := by
  induction xs with
  | nil => simp [processBits, htok]
  | cons x xs ih =>
    have hx := hok x (by simp)
    cases hb : bitAtom x with
    | error e' => rw [hb] at hx; cases hx
    | ok a =>
      have htail := ih fun b hb' => hok b (by simp [hb'])
      simp [processBits, hb, htail]

/-! ## C9: singleton client -/

/-- C9: constructing the `Client` wrapper is idempotent with respect to the
underlying client handle — however many further constructions follow the
first, the cached `ds_client` stays the handle created by the first
construction, and no later `fresh` connection is ever stored. -/
theorem C9_singleton_client (f1 : Nat) (fs : List Nat) :
    List.foldl clientInit none (f1 :: fs) = some f1 := by
  have h : ∀ (l : List Nat) (c : Nat), List.foldl clientInit (some c) l = some c := by
    intro l
    induction l with
    | nil => intro c; rfl
    | cons x xs ih => intro c; simpa [clientInit] using ih c
  simpa [clientInit] using h fs f1

/-! ## C3: odd flattened length -/

/-- C3 (amended part): `get_resource_id_from_key` rejects every flat path of
odd length with `InvalidKeyException`. -/
theorem C3_odd_length_rejected (path : List Atom) (h : path.length % 2 = 1) :
    get_resource_id_from_key path = .error .invalidKey := by
  simp [get_resource_id_from_key, h]

/-- C3 witness: a single kind with no identifier is rejected. -/
theorem C3_odd_length_rejected_witness :
    get_resource_id_from_key [Atom.s [65]] = .error .invalidKey :=
  C3_odd_length_rejected _ (by decide)

/-- C3 counterexample: the claim also asserts rejection of the empty
sequence, but the encoder accepts the empty flat path (its length is even)
and returns the empty resource id instead of failing. -/
theorem C3_empty_path_cex : get_resource_id_from_key [] = .ok [] := by decide

/-! ## C6: concrete vectors -/

/-- C6: the spec's concrete encode/decode vectors hold exactly, including
the integer identifier 5691902590451712, which exceeds the 32-bit range. -/
theorem C6_concrete_vectors :
    get_resource_id_from_key [Atom.s (str2c "UserEntity"), Atom.s (str2c "does_not_exist")] =
      .ok (str2c "VXNlckVudGl0eR5kb2VzX25vdF9leGlzdA") ∧
    get_resource_id_from_key [Atom.s (str2c "UserEntity"), Atom.i 1] =
      .ok (str2c "VXNlckVudGl0eR4fMQ") ∧
    resource_id_tokens (str2c "VXNlckVudGl0eR5kb2VzX25vdF9leGlzdA") =
      .ok [Atom.s (str2c "UserEntity"), Atom.s (str2c "does_not_exist")] ∧
    resource_id_tokens (str2c "RXZlbnQeHzU2OTE5MDI1OTA0NTE3MTI") =
      .ok [Atom.s (str2c "Event"), Atom.i 5691902590451712] ∧
    (2 : Int) ^ 32 < 5691902590451712 :=
  ⟨by decide, by decide, by decide, by decide, by decide⟩

/-! ## C8 and C10: the per-pair emptiness/truthiness check -/

lemma processPairs_mem_bad (prs : List (Atom × Atom)) (k idv : Atom)
    (hmem : (k, idv) ∈ prs) (hbad : strOfAtom k = [] ∨ pyTruthyAtom idv = false) :
    processPairs prs = .error .invalidKey := by
  induction prs with
  | nil => cases hmem
  | cons p rest ih =>
    obtain ⟨a, b⟩ := p
    by_cases hc : strOfAtom a = [] ∨ pyTruthyAtom b = false
    · simp [processPairs, hc]
    · rcases List.mem_cons.mp hmem with heq | hmem'
      · cases heq
        exact absurd hbad hc
      · simp [processPairs, hc, ih hmem']

/-- C8: a pair whose kind stringifies to the empty string, or whose
identifier is the empty string, makes `get_resource_id_from_key` fail with
`InvalidKeyException`. -/
theorem C8_empty_component_rejected (path : List Atom) (k idv : Atom)
    (hmem : (k, idv) ∈ toPairs path) (hbad : strOfAtom k = [] ∨ idv = Atom.s []) :
    get_resource_id_from_key path = .error .invalidKey := by
  have hbad' : strOfAtom k = [] ∨ pyTruthyAtom idv = false := by
    rcases hbad with h | h
    · exact .inl h
    · subst h; exact .inr rfl
  have hp := processPairs_mem_bad _ _ _ hmem hbad'
  by_cases hodd : path.length % 2 = 1
  · simp [get_resource_id_from_key, hodd]
  · simp [get_resource_id_from_key, hodd, hp]

/-- C8 witness: an empty kind string is rejected. -/
theorem C8_empty_component_rejected_witness :
    get_resource_id_from_key [Atom.s [], Atom.s [65]] = .error .invalidKey :=
  C8_empty_component_rejected _ (Atom.s []) (Atom.s [65]) (by decide) (by decide)

/-- C10: the integer identifier 0 is falsy in Python, so the encoder's
`not (kind and key_or_id)` check rejects it with `InvalidKeyException`,
while any nonzero integer identifier is accepted and rendered as the tag
marker followed by its decimal form. -/
theorem C10_zero_identifier (path : List Atom) (a : Atom) :
    ((a, Atom.i 0) ∈ toPairs path → get_resource_id_from_key path = .error .invalidKey) ∧
    (∀ (k : List Nat) (n : Int), k ≠ [] → n ≠ 0 →
      processPairs [(Atom.s k, Atom.i n)] = .ok [k ++ 30 :: 31 :: intRepr n]) := by
  constructor
  · intro hmem
    have hp := processPairs_mem_bad _ _ _ hmem (.inr (by simp [pyTruthyAtom]))
    by_cases hodd : path.length % 2 = 1
    · simp [get_resource_id_from_key, hodd]
    · simp [get_resource_id_from_key, hodd, hp]
  · intro k n hk hn
    have hc : ¬(strOfAtom (Atom.s k) = [] ∨ pyTruthyAtom (Atom.i n) = false) := by
      rintro (h | h)
      · exact hk h
      · simp only [pyTruthyAtom, bne_eq_false_iff_eq] at h
        exact hn h
    simp only [processPairs]
    rw [if_neg hc]
    simp [strOfAtom, idEnc, processPairs]

/-- C10 witness: identifier 0 is rejected, identifier 1 is tagged. -/
theorem C10_zero_identifier_witness :
    get_resource_id_from_key [Atom.s [75], Atom.i 0] = .error .invalidKey ∧
    processPairs [(Atom.s [75], Atom.i 1)] = .ok [[75] ++ 30 :: 31 :: intRepr 1] :=
  ⟨(C10_zero_identifier [Atom.s [75], Atom.i 0] (Atom.s [75])).1 (by decide),
    (C10_zero_identifier [] (Atom.s [])).2 [75] 1 (by decide) (by decide)⟩

/-! ## C5: uniform tag detection, and the decode loop's crashes -/

/-- C5 (amended): the integer-tag check is applied by one and the same
per-token function `bitAtom` at every position — in particular a
kind-position token starting with the tag marker is parsed as an integer —
and when every token is accepted the loop returns their images in order.
But the loop is not crash-free: the first empty token raises a raw
`IndexError` (`bit[0]`), and the first tag-marked token whose remainder is
not a valid integer literal (e.g. a token that is exactly the marker)
raises a raw `ValueError` (`int(bit[1:])`); neither is a documented decode
error. -/
theorem C5_uniform_tag_check (bits : List (List Nat)) :
    ((∀ b ∈ bits, isOkE (bitAtom b) = true) →
      processBits bits = .ok (bits.map fun b => (bitAtom b).toOption.getD (Atom.s []))) ∧
    (∀ xs ys, bits = xs ++ [] :: ys → (∀ b ∈ xs, isOkE (bitAtom b) = true) →
      processBits bits = .error .indexError) ∧
    (∀ xs ys, bits = xs ++ [31] :: ys → (∀ b ∈ xs, isOkE (bitAtom b) = true) →
      processBits bits = .error .valueError) := by
  refine ⟨?_, ?_, ?_⟩
  · intro hok
    induction bits with
    | nil => rfl
    | cons b rest ih =>
      have hb := hok b (by simp)
      cases hba : bitAtom b with
      | error e => rw [hba] at hb; cases hb
      | ok a =>
        have htail := ih fun b' hb' => hok b' (by simp [hb'])
        simp [processBits, hba, htail, Except.toOption]
  · intro xs ys hbits hok
    subst hbits
    exact processBits_append_error xs ys [] .indexError hok rfl
  · intro xs ys hbits hok
    subst hbits
    exact processBits_append_error xs ys [31] .valueError hok (by decide)

/-- C5 witness: a tag in kind position is parsed as an integer; an empty
token and a bare tag token abort the loop with raw errors. -/
theorem C5_uniform_tag_check_witness :
    processBits [[31, 49], [65]] = .ok [Atom.i 1, Atom.s [65]] ∧
    processBits [[65], [], [66]] = .error .indexError ∧
    processBits [[65], [31]] = .error .valueError := by
  refine ⟨?_, ?_, ?_⟩
  · have h := (C5_uniform_tag_check [[31, 49], [65]]).1 (by decide)
    exact h.trans (by decide)
  · exact (C5_uniform_tag_check [[65], [], [66]]).2.1 [[65]] [[66]] rfl (by decide)
  · exact (C5_uniform_tag_check [[65], [31]]).2.2 [[65]] [] rfl (by decide)

/-- C5 counterexample: the resource id "Hw" has a base64 payload decoding
to the single text chr(31) — a token that is exactly the tag marker — and
`get_key_from_resource_id`'s token loop crashes on it with a raw
`ValueError` from `int('')` instead of producing a token list or one of
Decode's documented errors. -/
theorem C5_uniform_tag_check_cex :
    resource_id_tokens (str2c "Hw") = .error .valueError := by decide


/-! ## Branch equations for resource_id_tokens -/

lemma rit_ascii_false (rid : List Nat)
    (h : ((padResource rid).all fun c => decide (c < 128)) = false) :
    resource_id_tokens rid = .error .valueError := by
  simp [resource_id_tokens, h]

lemma rit_b64_none (rid : List Nat)
    (h1 : ((padResource rid).all fun c => decide (c < 128)) = true)
    (h2 : a2b64 ((padResource rid).map b64translate) 0 0 0 = none) :
    resource_id_tokens rid = .error (.invalidId msgDecode) := by
  simp [resource_id_tokens, h1, h2]

lemma rit_utf8_none (rid bytes : List Nat)
    (h1 : ((padResource rid).all fun c => decide (c < 128)) = true)
    (h2 : a2b64 ((padResource rid).map b64translate) 0 0 0 = some bytes)
    (h3 : utf8Decode bytes = none) :
    resource_id_tokens rid = .error .unicodeDecode := by
  simp [resource_id_tokens, h1, h2, h3]

lemma rit_text (rid bytes text : List Nat)
    (h1 : ((padResource rid).all fun c => decide (c < 128)) = true)
    (h2 : a2b64 ((padResource rid).map b64translate) 0 0 0 = some bytes)
    (h3 : utf8Decode bytes = some text) :
    resource_id_tokens rid = processBits (pySplit 30 text) := by
  simp [resource_id_tokens, h1, h2, h3]

/-! ## C4: failure modes of the base64-decoding step -/

/-- C4 (amended): the decode path raises `InvalidIdException` exactly when
the lenient `binascii.a2b_base64` state machine fails on the padded,
translated input (data-character count ≡ 1 mod 4, or insufficient
padding).  Non-alphabet characters are silently skipped rather than
rejected, non-ASCII input raises a raw `ValueError`, and payload bytes that
are not valid UTF-8 raise `UnicodeDecodeError` — so `InvalidIdException`
is not the only exception the base64-decoding step can produce. -/
theorem C4_decode_failure_modes (rid : List Nat) :
    resource_id_tokens rid = .error (.invalidId msgDecode) ↔
      (((padResource rid).all fun c => decide (c < 128)) = true ∧
        a2b64 ((padResource rid).map b64translate) 0 0 0 = none) := by
  constructor
  · intro h
    cases hascii : (padResource rid).all fun c => decide (c < 128) with
    | false => rw [rit_ascii_false rid hascii] at h; simp at h
    | true =>
      refine ⟨rfl, ?_⟩
      cases ha : a2b64 ((padResource rid).map b64translate) 0 0 0 with
      | none => rfl
      | some bytes =>
        exfalso
        cases hu : utf8Decode bytes with
        | none => rw [rit_utf8_none rid bytes hascii ha hu] at h; simp at h
        | some text =>
          rw [rit_text rid bytes text hascii ha hu] at h
          rcases processBits_error_cases _ _ h with h' | h' <;> cases h'
  · rintro ⟨h1, h2⟩
    exact rit_b64_none rid h1 h2

/-- C4 counterexample: "!!!!" is not valid URL-safe base64 (four invalid
alphabet characters), yet Decode does not raise `InvalidIdException`: the
lenient decoder skips the characters, yields the empty text, and the token
loop then crashes with a raw `IndexError`. -/
theorem C4_decode_failure_modes_cex :
    resource_id_tokens (str2c "!!!!") = .error .indexError := by decide

/-! ## C2: error unification in get_entity_by_resource_id -/

lemma resource_id_tokens_error_caught (rid : List Nat) (e : PyErr)
    (h : resource_id_tokens rid = .error e) : isCaught e = true := by
  cases hascii : (padResource rid).all fun c => decide (c < 128) with
  | false =>
    rw [rit_ascii_false rid hascii] at h
    injection h with h'
    rw [← h']
    rfl
  | true =>
    cases ha : a2b64 ((padResource rid).map b64translate) 0 0 0 with
    | none =>
      rw [rit_b64_none rid hascii ha] at h
      injection h with h'
      rw [← h']
      rfl
    | some bytes =>
      cases hu : utf8Decode bytes with
      | none =>
        rw [rit_utf8_none rid bytes hascii ha hu] at h
        injection h with h'
        rw [← h']
        rfl
      | some text =>
        rw [rit_text rid bytes text hascii ha hu] at h
        rcases processBits_error_cases _ _ h with h' | h' <;> (subst h'; rfl)

lemma get_key_error_caught (rid : List Nat) (e : PyErr)
    (h : get_key_from_resource_id rid = .error e) : isCaught e = true := by
  simp only [get_key_from_resource_id] at h
  cases ht : resource_id_tokens rid with
  | error e' =>
    simp only [ht] at h
    injection h with h'
    exact h' ▸ resource_id_tokens_error_caught rid e' ht
  | ok toks =>
    simp only [ht] at h
    unfold buildKey at h
    split at h
    · injection h with h'
      rw [← h']
      rfl
    · simp at h

/-- C2: for every non-empty resource id string, `get_entity_by_resource_id`
either succeeds — the decoded key's leaf kind equals `expected_kind` and
the collaborator's lookup result (possibly `None`) is returned unchanged —
or fails with `InvalidIdException` whose message embeds the original
resource id.  In particular every internal failure (decoding, key
reconstruction, or the kind-mismatch `ValueError`) is caught by the
`except (ValueError, AttributeError, IndexError, TypeError)` clause and
re-raised uniformly; the raw kind-mismatch `ValueError` never escapes. -/
theorem C2_error_unification {Entity : Type} (lookup : DSKey → Option Entity)
    (expected_kind rid : List Nat) (h : rid ≠ []) :
    (∃ key, get_key_from_resource_id rid = .ok key ∧ DSKey.kind key = expected_kind ∧
        get_entity_by_resource_id lookup expected_kind rid = .ok (lookup key)) ∨
      get_entity_by_resource_id lookup expected_kind rid =
        .error (.invalidId (invalid_id_msg rid)) := by
  have hne : rid.isEmpty = false := by
    cases rid with
    | nil => exact absurd rfl h
    | cons c cs => rfl
  cases hk : get_key_from_resource_id rid with
  | error e =>
    right
    have hc := get_key_error_caught rid e hk
    simp [get_entity_by_resource_id, hne, resolveBody, hk, hc]
  | ok key =>
    by_cases hkind : DSKey.kind key = expected_kind
    · left
      exact ⟨key, rfl, hkind, by simp [get_entity_by_resource_id, hne, resolveBody, hk, hkind]⟩
    · right
      simp [get_entity_by_resource_id, hne, resolveBody, hk, hkind, isCaught]

/-- C2 witness: resolving a valid resource id of the expected kind returns
the collaborator's (absent) lookup result. -/
theorem C2_error_unification_witness :
    (∃ key, get_key_from_resource_id (str2c "VXNlckVudGl0eR4fMQ") = .ok key ∧
        DSKey.kind key = str2c "UserEntity" ∧
        get_entity_by_resource_id (fun _ => (none : Option Nat)) (str2c "UserEntity")
          (str2c "VXNlckVudGl0eR4fMQ") = .ok none) ∨
      get_entity_by_resource_id (fun _ => (none : Option Nat)) (str2c "UserEntity")
          (str2c "VXNlckVudGl0eR4fMQ") =
        .error (.invalidId (invalid_id_msg (str2c "VXNlckVudGl0eR4fMQ"))) :=
  C2_error_unification (fun _ => none) _ _ (by decide)

/-! ## C7: padding restoration -/

lemma urlchar_spec (c : Nat) (h : isB64UrlChar c = true) :
    b64translate c ≠ 61 ∧ (∃ v, b64table (b64translate c) = some v) ∧ c < 128 := by
  simp only [isB64UrlChar, Bool.or_eq_true, Bool.and_eq_true, decide_eq_true_eq,
    beq_iff_eq] at h
  rcases h with (((h | h) | h) | h) | h
  · have ht : b64translate c = c := by
      unfold b64translate
      rw [if_neg (by omega), if_neg (by omega)]
    exact ⟨by rw [ht]; omega, ⟨c - 65, by rw [ht]; unfold b64table; rw [if_pos h]⟩, by omega⟩
  · have ht : b64translate c = c := by
      unfold b64translate
      rw [if_neg (by omega), if_neg (by omega)]
    refine ⟨by rw [ht]; omega, ⟨c - 97 + 26, ?_⟩, by omega⟩
    rw [ht]
    unfold b64table
    rw [if_neg (by omega), if_pos h]
  · have ht : b64translate c = c := by
      unfold b64translate
      rw [if_neg (by omega), if_neg (by omega)]
    refine ⟨by rw [ht]; omega, ⟨c - 48 + 52, ?_⟩, by omega⟩
    rw [ht]
    unfold b64table
    rw [if_neg (by omega), if_neg (by omega), if_pos h]
  · subst h
    exact ⟨by decide, ⟨62, by decide⟩, by decide⟩
  · subst h
    exact ⟨by decide, ⟨63, by decide⟩, by decide⟩

lemma b64table_ne61 {c v : Nat} (h : b64table c = some v) : c ≠ 61 := by
  intro he
  subst he
  have h0 : b64table 61 = none := by decide
  rw [h0] at h
  cases h

lemma a2b64_step0 {c v : Nat} (rest : List Nat) (left pads : Nat)
    (hc : b64table c = some v) :
    a2b64 (c :: rest) 0 left pads = a2b64 rest 1 v 0 := by
  have h61 := b64table_ne61 hc
  simp [a2b64, h61, hc]

lemma a2b64_step1 {c v : Nat} (rest : List Nat) (left pads : Nat)
    (hc : b64table c = some v) :
    a2b64 (c :: rest) 1 left pads =
      (a2b64 rest 2 (v % 16) 0).map fun l => (left * 4 + v / 16) :: l := by
  have h61 := b64table_ne61 hc
  simp [a2b64, h61, hc]

lemma a2b64_step2 {c v : Nat} (rest : List Nat) (left pads : Nat)
    (hc : b64table c = some v) :
    a2b64 (c :: rest) 2 left pads =
      (a2b64 rest 3 (v % 4) 0).map fun l => (left * 16 + v / 4) :: l := by
  have h61 := b64table_ne61 hc
  simp [a2b64, h61, hc]

lemma a2b64_step3 {c v : Nat} (rest : List Nat) (left pads : Nat)
    (hc : b64table c = some v) :
    a2b64 (c :: rest) 3 left pads =
      (a2b64 rest 0 0 0).map fun l => (left * 64 + v) :: l := by
  have h61 := b64table_ne61 hc
  simp [a2b64, h61, hc]

lemma a2b64_data_run (l : List Nat) :
    (∀ c ∈ l, c ≠ 61 ∧ ∃ v, b64table c = some v) → l ≠ [] →
    ∀ (q left pads : Nat) (rest : List Nat), q ≤ 3 →
      ∃ left2, (a2b64 (l ++ rest) q left pads = none ↔
        a2b64 rest ((q + l.length) % 4) left2 0 = none) := by
  induction l with
  | nil => intro _ hne; exact absurd rfl hne
  | cons c l' ih =>
    intro hall _ q left pads rest hq
    obtain ⟨h61, v, hv⟩ := hall c (by simp)
    simp only [List.cons_append, List.length_cons]
    by_cases hl' : l' = []
    · subst hl'
      simp only [List.nil_append, List.length_nil]
      interval_cases q
      · exact ⟨v, by rw [a2b64_step0 rest left pads hv]⟩
      · exact ⟨v % 16, by rw [a2b64_step1 rest left pads hv, Option.map_eq_none']⟩
      · exact ⟨v % 4, by rw [a2b64_step2 rest left pads hv, Option.map_eq_none']⟩
      · exact ⟨0, by rw [a2b64_step3 rest left pads hv, Option.map_eq_none']⟩
    · have hall' : ∀ c' ∈ l', c' ≠ 61 ∧ ∃ v', b64table c' = some v' :=
        fun c' hc' => hall c' (by simp [hc'])
      interval_cases q
      · obtain ⟨left2, hiff⟩ := ih hall' hl' 1 v 0 rest (by omega)
        have hmod : (1 + l'.length) % 4 = (0 + (l'.length + 1)) % 4 := by omega
        rw [hmod] at hiff
        refine ⟨left2, ?_⟩
        rw [a2b64_step0 (l' ++ rest) left pads hv]
        exact hiff
      · obtain ⟨left2, hiff⟩ := ih hall' hl' 2 (v % 16) 0 rest (by omega)
        have hmod : (2 + l'.length) % 4 = (1 + (l'.length + 1)) % 4 := by omega
        rw [hmod] at hiff
        refine ⟨left2, ?_⟩
        rw [a2b64_step1 (l' ++ rest) left pads hv, Option.map_eq_none']
        exact hiff
      · obtain ⟨left2, hiff⟩ := ih hall' hl' 3 (v % 4) 0 rest (by omega)
        have hmod : (3 + l'.length) % 4 = (2 + (l'.length + 1)) % 4 := by omega
        rw [hmod] at hiff
        refine ⟨left2, ?_⟩
        rw [a2b64_step2 (l' ++ rest) left pads hv, Option.map_eq_none']
        exact hiff
      · obtain ⟨left2, hiff⟩ := ih hall' hl' 0 0 0 rest (by omega)
        have hmod : (0 + l'.length) % 4 = (3 + (l'.length + 1)) % 4 := by omega
        rw [hmod] at hiff
        refine ⟨left2, ?_⟩
        rw [a2b64_step3 (l' ++ rest) left pads hv, Option.map_eq_none']
        exact hiff

/-- C7 (amended): padding restoration appends exactly 0, 2 or 1 `=` for
input lengths ≡ 0, 2, 3 (mod 4) and at most 3 in any case, making the
padded length a multiple of 4; and for inputs of length ≡ 1 (mod 4)
consisting of URL-safe alphabet characters (the only characters Encode
emits), Decode fails cleanly with `InvalidIdException`.  (For length ≡ 1
inputs containing non-alphabet characters this clean failure is not
guaranteed — see the counterexample, which crashes with `IndexError`.) -/
theorem C7_padding_restoration (rid : List Nat) :
    (rid.length % 4 = 0 → padResource rid = rid) ∧
    (rid.length % 4 ≠ 0 →
      padResource rid = rid ++ List.replicate (4 - rid.length % 4) 61 ∧
      (padResource rid).length % 4 = 0 ∧ 4 - rid.length % 4 ≤ 3) ∧
    ((∀ c ∈ rid, isB64UrlChar c = true) → rid.length % 4 = 1 →
      resource_id_tokens rid = .error (.invalidId msgDecode)) := by
  refine ⟨fun h => by rw [padResource, if_pos h], fun h => ?_, fun halpha hlen => ?_⟩
  · have hpad : padResource rid = rid ++ List.replicate (4 - rid.length % 4) 61 := by
      rw [padResource, if_neg h]
    have hlen' : (padResource rid).length = rid.length + (4 - rid.length % 4) := by
      rw [hpad, List.length_append, List.length_replicate]
    exact ⟨hpad, by omega, by omega⟩
  · have hrne : rid ≠ [] := by
      intro h0
      rw [h0] at hlen
      simp at hlen
    have hpadne : rid.length % 4 ≠ 0 := by omega
    have hpad : padResource rid = rid ++ List.replicate 3 61 := by
      rw [padResource, if_neg hpadne, hlen]
    have hmap : (padResource rid).map b64translate = rid.map b64translate ++ [61, 61, 61] := by
      rw [hpad, List.map_append]
      rfl
    have hascii : ((padResource rid).all fun c => decide (c < 128)) = true := by
      rw [hpad, List.all_append, Bool.and_eq_true]
      refine ⟨?_, by decide⟩
      simp only [List.all_eq_true, decide_eq_true_eq]
      intro c hc
      exact (urlchar_spec c (halpha c hc)).2.2
    have hdata : ∀ c ∈ rid.map b64translate, c ≠ 61 ∧ ∃ v, b64table c = some v := by
      intro c hc
      obtain ⟨c0, hc0, rfl⟩ := List.mem_map.mp hc
      have hs := urlchar_spec c0 (halpha c0 hc0)
      exact ⟨hs.1, hs.2.1⟩
    have hmapne : rid.map b64translate ≠ [] := by
      cases rid with
      | nil => exact absurd rfl hrne
      | cons c cs => simp
    obtain ⟨left2, hiff⟩ := a2b64_data_run (rid.map b64translate) hdata hmapne 0 0 0
      [61, 61, 61] (by omega)
    have hmod : (0 + (rid.map b64translate).length) % 4 = 1 := by
      rw [List.length_map]
      omega
    rw [hmod] at hiff
    have htail : a2b64 [61, 61, 61] 1 left2 0 = none := rfl
    have hnone : a2b64 ((padResource rid).map b64translate) 0 0 0 = none := by
      rw [hmap]
      exact hiff.mpr htail
    exact rit_b64_none rid hascii hnone

/-- C7 witness: the spec's example "VXNlckVudGl0eR5k3" (length 17 ≡ 1 mod
4, all alphabet characters) fails cleanly with `InvalidIdException`. -/
theorem C7_padding_restoration_witness :
    resource_id_tokens (str2c "VXNlckVudGl0eR5k3") = .error (.invalidId msgDecode) :=
  (C7_padding_restoration (str2c "VXNlckVudGl0eR5k3")).2.2 (by decide) (by decide)

/-- C7 counterexample: "!" has length 1 ≡ 1 (mod 4), but instead of the
claimed clean `InvalidIdException` the decode path crashes with a raw
`IndexError`: the lenient base64 decoder skips the invalid character and
the appended padding, succeeds with an empty payload, and the token loop
then evaluates `bit[0]` on the empty token. -/
theorem C7_padding_restoration_cex :
    resource_id_tokens [33] = .error .indexError := by decide

/-! ## C1: round trip.  Decimal rendering and int() parsing -/

lemma natDigitsGo_spec : ∀ (fuel n : Nat) (acc : List Nat), n < fuel →
    ∃ ds, natDigitsGo fuel n acc = ds ++ acc ∧ ds ≠ [] ∧
      (∀ c ∈ ds, 48 ≤ c ∧ c ≤ 57) ∧
      ∀ v, List.foldl (fun a c => a * 10 + (c - 48)) v ds = v * 10 ^ ds.length + n := by
  intro fuel
  induction fuel with
  | zero => intro n acc h; omega
  | succ fuel ih =>
    intro n acc h
    by_cases h10 : n < 10
    · refine ⟨[48 + n], by simp [natDigitsGo, h10], by simp, ?_, ?_⟩
      · intro c hc
        simp only [List.mem_singleton] at hc
        omega
      · intro v
        simp only [List.foldl, List.length_singleton, pow_one]
        omega
    · have hlt : n / 10 < fuel := by omega
      obtain ⟨ds, hgo, hne, hdig, hval⟩ := ih (n / 10) ((48 + n % 10) :: acc) hlt
      refine ⟨ds ++ [48 + n % 10], ?_, by simp, ?_, ?_⟩
      · simp only [natDigitsGo]
        rw [if_neg h10, hgo]
        simp
      · intro c hc
        rcases List.mem_append.mp hc with hc | hc
        · exact hdig c hc
        · simp only [List.mem_singleton] at hc
          omega
      · intro v
        rw [List.foldl_append, hval v]
        simp only [List.foldl]
        have h1 : 48 + n % 10 - 48 = n % 10 := by omega
        rw [h1, List.length_append, List.length_singleton, pow_succ]
        have hx : n / 10 * 10 + n % 10 = n := by omega
        calc (v * 10 ^ ds.length + n / 10) * 10 + n % 10
            = v * (10 ^ ds.length * 10) + (n / 10 * 10 + n % 10) := by ring
          _ = v * (10 ^ ds.length * 10) + n := by rw [hx]

lemma natDigits_spec (n : Nat) :
    natDigits n ≠ [] ∧ (∀ c ∈ natDigits n, 48 ≤ c ∧ c ≤ 57) ∧
      List.foldl (fun a c => a * 10 + (c - 48)) 0 (natDigits n) = n := by
  obtain ⟨ds, hgo, hne, hdig, hval⟩ := natDigitsGo_spec (n + 1) n [] (by omega)
  have hgo0 : natDigits n = ds := by rw [natDigits, hgo, List.append_nil]
  refine ⟨hgo0 ▸ hne, hgo0 ▸ hdig, ?_⟩
  rw [hgo0]
  simpa using hval 0

lemma parseUDigitsGo_digits : ∀ (ds : List Nat), (∀ c ∈ ds, 48 ≤ c ∧ c ≤ 57) →
    ∀ acc, parseUDigitsGo acc ds = some (List.foldl (fun a c => a * 10 + (c - 48)) acc ds) := by
  intro ds
  induction ds with
  | nil => intro _ acc; rfl
  | cons c rest ih =>
    intro h acc
    have hc := h c (by simp)
    have hdig : isDigit c = true := by
      simp only [isDigit, Bool.and_eq_true, decide_eq_true_eq]
      omega
    cases rest with
    | nil => simp [parseUDigitsGo, hdig]
    | cons d rest2 =>
      rw [parseUDigitsGo, if_pos hdig]
      exact ih (fun c' hc' => h c' (by simp [hc'])) (acc * 10 + (c - 48))

lemma parseUDigits_natDigits (n : Nat) : parseUDigits (natDigits n) = some n := by
  obtain ⟨hne, hdig, hval⟩ := natDigits_spec n
  cases hd : natDigits n with
  | nil => exact absurd hd hne
  | cons c rest =>
    rw [hd] at hdig hval
    have hc := hdig c (by simp)
    have hdigc : isDigit c = true := by
      simp only [isDigit, Bool.and_eq_true, decide_eq_true_eq]
      omega
    simp only [parseUDigits, hdigc, if_true]
    rw [parseUDigitsGo_digits rest (fun c' h' => hdig c' (by simp [h'])) (c - 48)]
    have hfold : List.foldl (fun a c => a * 10 + (c - 48)) (c - 48) rest = n := by
      simpa [List.foldl] using hval
    rw [hfold]

lemma dropWhile_all_false {p : Nat → Bool} (l : List Nat) (h : ∀ c ∈ l, p c = false) :
    List.dropWhile p l = l := by
  cases l with
  | nil => rfl
  | cons c rest =>
    have hc := h c (by simp)
    simp [List.dropWhile, hc]

lemma stripWs_id (l : List Nat) (h : ∀ c ∈ l, pySpace c = false) : stripWs l = l := by
  rw [stripWs, dropWhile_all_false l h,
    dropWhile_all_false l.reverse (fun c hc => h c (List.mem_reverse.mp hc)),
    List.reverse_reverse]

lemma pyIntParse_intRepr (n : Int) : pyIntParse (intRepr n) = some n := by
  by_cases hn : n < 0
  · rw [intRepr, if_pos hn]
    have hdig := (natDigits_spec n.natAbs).2.1
    have hnospace : ∀ c ∈ 45 :: natDigits n.natAbs, pySpace c = false := by
      intro c hc
      rcases List.mem_cons.mp hc with rfl | hc
      · rfl
      · have := hdig c hc
        simp only [pySpace, Bool.or_eq_false_iff, beq_eq_false_iff_ne]
        omega
    have hs := stripWs_id _ hnospace
    simp only [pyIntParse, hs, parseUDigits_natDigits, Option.map_some']
    have habs : (Int.ofNat n.natAbs) = -n := Int.ofNat_natAbs_of_nonpos (by omega)
    rw [habs, neg_neg]
    norm_num
  · rw [intRepr, if_neg hn]
    obtain ⟨hne, hdig, _⟩ := natDigits_spec n.toNat
    cases hd : natDigits n.toNat with
    | nil => exact absurd hd hne
    | cons c rest =>
      rw [hd] at hdig
      have hc := hdig c (by simp)
      have hnospace : ∀ c' ∈ c :: rest, pySpace c' = false := by
        intro c' hc'
        have := hdig c' hc'
        simp only [pySpace, Bool.or_eq_false_iff, beq_eq_false_iff_ne]
        omega
      have hs := stripWs_id _ hnospace
      simp only [pyIntParse, hs]
      rw [if_neg (by omega), if_neg (by omega), ← hd, parseUDigits_natDigits]
      simp only [Option.map_some']
      congr 1
      exact Int.toNat_of_nonneg (by omega)

lemma intRepr_chars (n : Int) :
    intRepr n ≠ [] ∧ ∀ c ∈ intRepr n, (48 ≤ c ∧ c ≤ 57) ∨ c = 45 := by
  by_cases hn : n < 0
  · rw [intRepr, if_pos hn]
    refine ⟨by simp, ?_⟩
    intro c hc
    rcases List.mem_cons.mp hc with rfl | hc
    · exact .inr rfl
    · exact .inl ((natDigits_spec n.natAbs).2.1 c hc)
  · rw [intRepr, if_neg hn]
    exact ⟨(natDigits_spec n.toNat).1, fun c hc => .inl ((natDigits_spec n.toNat).2.1 c hc)⟩

lemma enc64_table : ∀ v < 64, b64table (b64translate (enc64 v)) = some v ∧
    isB64UrlChar (enc64 v) = true := by decide

lemma b64encodePad_struct : ∀ (buff : List Nat), (∀ b ∈ buff, b < 256) →
    ∃ s k, b64encodePad buff = s ++ List.replicate k 61 ∧ k ≤ 2 ∧
      (∀ c ∈ s, isB64UrlChar c = true) ∧ (s.length + k) % 4 = 0 := by
  intro buff
  induction buff using b64encodePad.induct with
  | case1 => exact fun _ => ⟨[], 0, rfl, by omega, by simp, by simp⟩
  | case2 a =>
    intro h
    have ha := h a (by simp)
    refine ⟨[enc64 (a / 4), enc64 (a % 4 * 16)], 2, rfl, by omega, ?_, by simp⟩
    intro c hc
    simp only [List.mem_cons, List.mem_singleton, List.not_mem_nil, or_false] at hc
    rcases hc with rfl | rfl
    · exact (enc64_table (a / 4) (by omega)).2
    · exact (enc64_table (a % 4 * 16) (by omega)).2
  | case3 a b =>
    intro h
    have ha := h a (by simp)
    have hb := h b (by simp)
    refine ⟨[enc64 (a / 4), enc64 (a % 4 * 16 + b / 16), enc64 (b % 16 * 4)], 1, rfl,
      by omega, ?_, by simp⟩
    intro c hc
    simp only [List.mem_cons, List.mem_singleton, List.not_mem_nil, or_false] at hc
    rcases hc with rfl | rfl | rfl
    · exact (enc64_table (a / 4) (by omega)).2
    · exact (enc64_table (a % 4 * 16 + b / 16) (by omega)).2
    · exact (enc64_table (b % 16 * 4) (by omega)).2
  | case4 a b c rest ih =>
    intro h
    have ha := h a (by simp)
    have hb := h b (by simp)
    have hc' := h c (by simp)
    obtain ⟨s, k, he, hk, hchars, hlen⟩ := ih fun x hx => h x (by simp [hx])
    refine ⟨enc64 (a / 4) :: enc64 (a % 4 * 16 + b / 16) :: enc64 (b % 16 * 4 + c / 64) ::
      enc64 (c % 64) :: s, k, ?_, hk, ?_, ?_⟩
    · rw [b64encodePad, he]
      simp
    · intro x hx
      simp only [List.mem_cons] at hx
      rcases hx with rfl | rfl | rfl | rfl | hx
      · exact (enc64_table (a / 4) (by omega)).2
      · exact (enc64_table (a % 4 * 16 + b / 16) (by omega)).2
      · exact (enc64_table (b % 16 * 4 + c / 64) (by omega)).2
      · exact (enc64_table (c % 64) (by omega)).2
      · exact hchars x hx
    · simp only [List.length_cons]
      omega

lemma a2b64_encodePad : ∀ (buff : List Nat), (∀ b ∈ buff, b < 256) →
    a2b64 ((b64encodePad buff).map b64translate) 0 0 0 = some buff := by
  intro buff
  induction buff using b64encodePad.induct with
  | case1 => exact fun _ => rfl
  | case2 a =>
    intro h
    have ha := h a (by simp)
    have h0 := (enc64_table (a / 4) (by omega)).1
    have h1 := (enc64_table (a % 4 * 16) (by omega)).1
    have ht61 : b64translate 61 = 61 := rfl
    simp only [b64encodePad, List.map_cons, List.map_nil, ht61]
    rw [a2b64_step0 _ 0 0 h0, a2b64_step1 _ _ 0 h1]
    have hdone : a2b64 [61, 61] 2 (a % 4 * 16 % 16) 0 = some [] := rfl
    rw [hdone]
    simp only [Option.map_some']
    have hb1 : a / 4 * 4 + a % 4 * 16 / 16 = a := by omega
    rw [hb1]
  | case3 a b =>
    intro h
    have ha := h a (by simp)
    have hb := h b (by simp)
    have h0 := (enc64_table (a / 4) (by omega)).1
    have h1 := (enc64_table (a % 4 * 16 + b / 16) (by omega)).1
    have h2 := (enc64_table (b % 16 * 4) (by omega)).1
    have ht61 : b64translate 61 = 61 := rfl
    simp only [b64encodePad, List.map_cons, List.map_nil, ht61]
    rw [a2b64_step0 _ 0 0 h0, a2b64_step1 _ _ 0 h1, a2b64_step2 _ _ 0 h2]
    have hdone : a2b64 [61] 3 (b % 16 * 4 % 4) 0 = some [] := rfl
    rw [hdone]
    simp only [Option.map_some']
    have hb1 : a / 4 * 4 + (a % 4 * 16 + b / 16) / 16 = a := by omega
    have hb2 : (a % 4 * 16 + b / 16) % 16 * 16 + b % 16 * 4 / 4 = b := by omega
    rw [hb1, hb2]
  | case4 a b c rest ih =>
    intro h
    have ha := h a (by simp)
    have hb := h b (by simp)
    have hc' := h c (by simp)
    have hrest := ih fun x hx => h x (by simp [hx])
    have h0 := (enc64_table (a / 4) (by omega)).1
    have h1 := (enc64_table (a % 4 * 16 + b / 16) (by omega)).1
    have h2 := (enc64_table (b % 16 * 4 + c / 64) (by omega)).1
    have h3 := (enc64_table (c % 64) (by omega)).1
    simp only [b64encodePad, List.map_cons]
    rw [a2b64_step0 _ 0 0 h0, a2b64_step1 _ _ 0 h1, a2b64_step2 _ _ 0 h2,
      a2b64_step3 _ _ 0 h3, hrest]
    simp only [Option.map_some']
    have hb1 : a / 4 * 4 + (a % 4 * 16 + b / 16) / 16 = a := by omega
    have hb2 : (a % 4 * 16 + b / 16) % 16 * 16 + (b % 16 * 4 + c / 64) / 4 = b := by omega
    have hb3 : (b % 16 * 4 + c / 64) % 4 * 64 + c % 64 = c := by omega
    rw [hb1, hb2, hb3]

lemma b64encodePad_filter_pad (buff : List Nat) (h : ∀ b ∈ buff, b < 256) :
    padResource ((b64encodePad buff).filter fun c => c != 61) = b64encodePad buff := by
  obtain ⟨s, k, he, hk, hchars, hlen⟩ := b64encodePad_struct buff h
  have hs61 : ∀ c ∈ s, (c != 61) = true := by
    intro c hc
    have hch := hchars c hc
    simp only [bne_iff_ne, ne_eq]
    intro h61
    subst h61
    exact absurd hch (by decide)
  have hfil : (b64encodePad buff).filter (fun c => c != 61) = s := by
    rw [he, List.filter_append]
    have h1 : s.filter (fun c => c != 61) = s := List.filter_eq_self.mpr hs61
    have h2 : ∀ m, (List.replicate m 61).filter (fun c => c != 61) = [] := by
      intro m
      induction m with
      | zero => rfl
      | succ m ih => simp [List.replicate_succ, List.filter_cons, ih]
    rw [h1, h2 k, List.append_nil]
  rw [hfil, padResource]
  by_cases hk0 : k = 0
  · subst hk0
    rw [if_pos (by omega), he]
    simp
  · have hmod : s.length % 4 = 4 - k := by omega
    rw [if_neg (by omega), he, hmod]
    have h4 : 4 - (4 - k) = k := by omega
    rw [h4]

lemma b64encodePad_lt128 (buff : List Nat) (h : ∀ b ∈ buff, b < 256) :
    ∀ c ∈ b64encodePad buff, c < 128 := by
  obtain ⟨s, k, he, _, hchars, _⟩ := b64encodePad_struct buff h
  intro c hc
  rw [he] at hc
  rcases List.mem_append.mp hc with hc | hc
  · exact (urlchar_spec c (hchars c hc)).2.2
  · rw [List.eq_of_mem_replicate hc]
    omega

lemma utf8Go_ascii : ∀ (fuel : Nat) (l : List Nat), (∀ c ∈ l, c < 128) →
    l.length ≤ fuel → utf8Go fuel l = some l := by
  intro fuel
  induction fuel with
  | zero =>
    intro l h hlen
    cases l with
    | nil => rfl
    | cons b rest => simp at hlen
  | succ fuel ih =>
    intro l h hlen
    cases l with
    | nil => rfl
    | cons b rest =>
      have hb := h b (by simp)
      have hstep : utf8Step (b :: rest) = some (b, rest) := by simp [utf8Step, hb]
      have hrest : utf8Go fuel rest = some rest := by
        refine ih rest (fun c hc => h c (by simp [hc])) ?_
        simp only [List.length_cons] at hlen
        omega
      rw [utf8Go]
      simp only [hstep, hrest, Option.map_some']

lemma utf8Decode_ascii (l : List Nat) (h : ∀ c ∈ l, c < 128) : utf8Decode l = some l :=
  utf8Go_ascii l.length l h (le_refl _)

lemma pySplit_cons (sep c : Nat) (rest : List Nat) :
    pySplit sep (c :: rest) =
      match pySplit sep rest with
      | [] => [[]]
      | t :: ts => if c = sep then [] :: t :: ts else (c :: t) :: ts := by
  rw [pySplit.eq_def]

lemma pySplit_ne_nil (sep : Nat) : ∀ l, pySplit sep l ≠ [] := by
  intro l
  cases l with
  | nil => simp [pySplit]
  | cons c rest =>
    rw [pySplit_cons]
    cases h : pySplit sep rest with
    | nil => simp
    | cons t ts =>
      by_cases hc : c = sep
      · simp [hc]
      · simp [hc]

lemma pySplit_no_sep (x : List Nat) (h : 30 ∉ x) : pySplit 30 x = [x] := by
  induction x with
  | nil => rfl
  | cons c rest ih =>
    rw [List.mem_cons] at h
    push_neg at h
    rw [pySplit_cons, ih h.2]
    show (if c = 30 then [] :: rest :: [] else (c :: rest) :: []) = [c :: rest]
    rw [if_neg (fun he : c = 30 => h.1 he.symm)]

lemma pySplit_append (x r : List Nat) (h : 30 ∉ x) :
    pySplit 30 (x ++ 30 :: r) = x :: pySplit 30 r := by
  induction x with
  | nil =>
    rw [List.nil_append, pySplit_cons]
    cases hr : pySplit 30 r with
    | nil => exact absurd hr (pySplit_ne_nil 30 r)
    | cons t ts =>
      show (if (30 : Nat) = 30 then [] :: t :: ts else ((30 : Nat) :: t) :: ts) = [] :: t :: ts
      rw [if_pos rfl]
  | cons c rest ih =>
    rw [List.mem_cons] at h
    push_neg at h
    rw [List.cons_append, pySplit_cons, ih h.2]
    cases hr : pySplit 30 r with
    | nil => exact absurd hr (pySplit_ne_nil 30 r)
    | cons t ts =>
      show (if c = 30 then [] :: rest :: t :: ts else (c :: rest) :: t :: ts) =
        (c :: rest) :: t :: ts
      rw [if_neg (fun he : c = 30 => h.1 he.symm)]

lemma sepJoin_cons_ne (e : List Nat) (L : List (List Nat)) (h : L ≠ []) :
    sepJoin (e :: L) = e ++ 30 :: sepJoin L := by
  cases L with
  | nil => exact absurd rfl h
  | cons y rest => rfl

lemma sepJoin_split : ∀ (toks : List (List Nat)), toks ≠ [] → (∀ t ∈ toks, 30 ∉ t) →
    pySplit 30 (sepJoin toks) = toks := by
  intro toks
  induction toks with
  | nil => intro h; exact absurd rfl h
  | cons x rest ih =>
    intro _ hall
    cases rest with
    | nil => exact pySplit_no_sep x (hall x (by simp))
    | cons y rest2 =>
      rw [sepJoin, pySplit_append _ _ (hall x (by simp)),
        ih (by simp) (fun t ht => hall t (by simp [ht]))]

lemma sepJoin_mem (toks : List (List Nat)) (c : Nat) (hc : c ∈ sepJoin toks) :
    c = 30 ∨ ∃ t ∈ toks, c ∈ t := by
  induction toks with
  | nil => simp [sepJoin] at hc
  | cons x rest ih =>
    cases rest with
    | nil => exact .inr ⟨x, by simp, hc⟩
    | cons y rest2 =>
      rw [sepJoin] at hc
      rcases List.mem_append.mp hc with h | h
      · exact .inr ⟨x, by simp, h⟩
      · rcases List.mem_cons.mp h with rfl | h2
        · exact .inl rfl
        · rcases ih h2 with h3 | ⟨t, ht, hct⟩
          · exact .inl h3
          · exact .inr ⟨t, List.mem_cons_of_mem x ht, hct⟩

lemma toPairs_flattenPairs : ∀ p : List (List Nat × Atom),
    toPairs (flattenPairs p) = p.map fun pr => (Atom.s pr.1, pr.2) := by
  intro p
  induction p with
  | nil => rfl
  | cons pr rest ih =>
    obtain ⟨k, idv⟩ := pr
    simp [flattenPairs, toPairs, ih]

lemma flattenPairs_length : ∀ p : List (List Nat × Atom),
    (flattenPairs p).length = 2 * p.length := by
  intro p
  induction p with
  | nil => rfl
  | cons pr rest ih =>
    obtain ⟨k, idv⟩ := pr
    simp only [flattenPairs, List.length_cons, ih]
    omega

lemma goodStrB_spec (s : List Nat) (h : goodStrB s = true) :
    s ≠ [] ∧ ∀ c ∈ s, c < 128 ∧ c ≠ 30 ∧ c ≠ 31 := by
  rw [goodStrB, Bool.and_eq_true] at h
  constructor
  · intro he
    subst he
    simp at h
  · intro c hc
    have hx := List.all_eq_true.mp h.2 c hc
    rw [Bool.and_eq_true, Bool.and_eq_true] at hx
    exact ⟨of_decide_eq_true hx.1.1, bne_iff_ne.mp hx.1.2, bne_iff_ne.mp hx.2⟩

lemma wellFormedPathB_spec (p : List (List Nat × Atom)) (h : wellFormedPathB p = true) :
    p ≠ [] ∧ ∀ pr ∈ p, goodStrB pr.1 = true ∧ goodIdB pr.2 = true := by
  rw [wellFormedPathB, Bool.and_eq_true] at h
  constructor
  · intro he
    subst he
    simp at h
  · intro pr hpr
    have hx := List.all_eq_true.mp h.2 pr hpr
    rwa [Bool.and_eq_true] at hx

lemma processPairs_flat (p : List (List Nat × Atom))
    (hall : ∀ pr ∈ p, goodStrB pr.1 = true ∧ goodIdB pr.2 = true) :
    processPairs (p.map fun pr => (Atom.s pr.1, pr.2)) = .ok (pairStrs p) := by
  induction p with
  | nil => rfl
  | cons pr rest ih =>
    obtain ⟨k, idv⟩ := pr
    obtain ⟨hk, hid⟩ := hall (k, idv) (by simp)
    have hkne : k ≠ [] := (goodStrB_spec k hk).1
    have hidt : pyTruthyAtom idv = true := by
      cases idv with
      | s v =>
        have hvne := (goodStrB_spec v hid).1
        cases v with
        | nil => exact absurd rfl hvne
        | cons a b => rfl
      | i n => exact hid
    have hcond : ¬(strOfAtom (Atom.s k) = [] ∨ pyTruthyAtom idv = false) := by
      rintro (h1 | h1)
      · exact hkne h1
      · rw [hidt] at h1
        cases h1
    simp only [List.map_cons, processPairs]
    rw [if_neg hcond, ih (fun pr' h' => hall pr' (by simp [h']))]
    rfl

lemma sepJoin_pairStrs : ∀ p : List (List Nat × Atom),
    sepJoin (pairStrs p) = sepJoin (flatToks p) := by
  intro p
  induction p with
  | nil => rfl
  | cons pr rest ih =>
    obtain ⟨k, idv⟩ := pr
    cases rest with
    | nil => simp [pairStrs, flatToks, sepJoin]
    | cons pr2 rest2 =>
      have hp : pairStrs (pr2 :: rest2) ≠ [] := by
        obtain ⟨a, b⟩ := pr2
        simp [pairStrs]
      have hf : flatToks (pr2 :: rest2) ≠ [] := by
        obtain ⟨a, b⟩ := pr2
        simp [flatToks]
      rw [pairStrs, flatToks, sepJoin_cons_ne _ _ hp,
        sepJoin_cons_ne _ _ (List.cons_ne_nil _ _), sepJoin_cons_ne _ _ hf, ih]
      simp [List.cons_append, List.append_assoc]

lemma flatToks_chars (p : List (List Nat × Atom))
    (hall : ∀ pr ∈ p, goodStrB pr.1 = true ∧ goodIdB pr.2 = true) :
    ∀ t ∈ flatToks p, 30 ∉ t ∧ ∀ c ∈ t, c < 128 := by
  induction p with
  | nil =>
    intro t ht
    simp [flatToks] at ht
  | cons pr rest ih =>
    obtain ⟨k, idv⟩ := pr
    obtain ⟨hk, hid⟩ := hall (k, idv) (by simp)
    intro t ht
    rw [flatToks] at ht
    rcases List.mem_cons.mp ht with rfl | ht2
    · obtain ⟨_, hchars⟩ := goodStrB_spec t hk
      exact ⟨fun h30 => (hchars 30 h30).2.1 rfl, fun c hc => (hchars c hc).1⟩
    · rcases List.mem_cons.mp ht2 with rfl | ht3
      · cases idv with
        | s v =>
          obtain ⟨_, hchars⟩ := goodStrB_spec v hid
          simp only [idEnc]
          exact ⟨fun h30 => (hchars 30 h30).2.1 rfl, fun c hc => (hchars c hc).1⟩
        | i n =>
          obtain ⟨hne, hchars⟩ := intRepr_chars n
          simp only [idEnc]
          constructor
          · intro h30
            rcases List.mem_cons.mp h30 with h1 | h1
            · exact absurd h1 (by decide)
            · rcases hchars 30 h1 with h2 | h2 <;> omega
          · intro c hc
            rcases List.mem_cons.mp hc with rfl | hc2
            · omega
            · rcases hchars c hc2 with h2 | h2 <;> omega
      · exact ih (fun pr' h' => hall pr' (by simp [h'])) t ht3

lemma flatToks_ne_nil (p : List (List Nat × Atom)) (h : p ≠ []) : flatToks p ≠ [] := by
  cases p with
  | nil => exact absurd rfl h
  | cons pr rest =>
    obtain ⟨k, idv⟩ := pr
    simp [flatToks]

lemma processBits_flatToks (p : List (List Nat × Atom))
    (hall : ∀ pr ∈ p, goodStrB pr.1 = true ∧ goodIdB pr.2 = true) :
    processBits (flatToks p) = .ok (flattenPairs p) := by
  induction p with
  | nil => rfl
  | cons pr rest ih =>
    obtain ⟨k, idv⟩ := pr
    obtain ⟨hk, hid⟩ := hall (k, idv) (by simp)
    obtain ⟨hkne, hkchars⟩ := goodStrB_spec k hk
    have hbk : bitAtom k = .ok (.s k) := by
      cases k with
      | nil => exact absurd rfl hkne
      | cons c cs =>
        have hc31 : c ≠ 31 := (hkchars c (by simp)).2.2
        simp [bitAtom, hc31]
    have hbid : bitAtom (idEnc idv) = .ok idv := by
      cases idv with
      | s v =>
        obtain ⟨hvne, hvchars⟩ := goodStrB_spec v hid
        cases v with
        | nil => exact absurd rfl hvne
        | cons c cs =>
          have hc31 : c ≠ 31 := (hvchars c (by simp)).2.2
          simp [bitAtom, idEnc, hc31]
      | i n => simp [bitAtom, idEnc, pyIntParse_intRepr n]
    have ihr := ih fun pr' h' => hall pr' (by simp [h'])
    rw [flatToks]
    simp only [processBits, hbk, hbid, ihr, flattenPairs]

/-- C1 (amended): for every non-empty key path whose kinds and string
identifiers are non-empty ASCII strings free of the separator (30) and
tag-marker (31) bytes, and whose integer identifiers are nonzero,
decoding the encoded resource id reproduces the flattened path exactly —
pair order, kind strings, and the integer-vs-string tag of every
identifier are preserved.  (The original claim admits the integer
identifier 0 and non-ASCII text; both make Encode raise instead.) -/
theorem C1_round_trip (p : List (List Nat × Atom)) (h : wellFormedPathB p = true) :
    (get_resource_id_from_key (flattenPairs p)).bind resource_id_tokens =
      .ok (flattenPairs p) := by
  obtain ⟨hpne, hall⟩ := wellFormedPathB_spec p h
  have hlen : ¬ (flattenPairs p).length % 2 = 1 := by
    rw [flattenPairs_length]
    omega
  have htokgood := flatToks_chars p hall
  have hjchars : ∀ c ∈ sepJoin (flatToks p), c < 128 := by
    intro c hc
    rcases sepJoin_mem _ c hc with rfl | ⟨t, ht, hct⟩
    · omega
    · exact (htokgood t ht).2 c hct
  have hascii : encodeAscii (sepJoin (flatToks p)) = .ok (sepJoin (flatToks p)) := by
    rw [encodeAscii,
      if_pos (List.all_eq_true.mpr fun c hc => decide_eq_true (hjchars c hc))]
  have henc : get_resource_id_from_key (flattenPairs p) =
      .ok ((b64encodePad (sepJoin (flatToks p))).filter fun c => c != 61) := by
    simp only [get_resource_id_from_key]
    rw [if_neg hlen, toPairs_flattenPairs p, processPairs_flat p hall]
    simp only [sepJoin_pairStrs p, hascii]
  have hbuff256 : ∀ b ∈ sepJoin (flatToks p), b < 256 := by
    intro b hb
    have := hjchars b hb
    omega
  have hpad := b64encodePad_filter_pad (sepJoin (flatToks p)) hbuff256
  have hpadded_ascii : ((padResource ((b64encodePad (sepJoin (flatToks p))).filter
      fun c => c != 61)).all fun c => decide (c < 128)) = true := by
    rw [hpad]
    exact List.all_eq_true.mpr fun c hc =>
      decide_eq_true (b64encodePad_lt128 _ hbuff256 c hc)
  have ha2b : a2b64 ((padResource ((b64encodePad (sepJoin (flatToks p))).filter
      fun c => c != 61)).map b64translate) 0 0 0 = some (sepJoin (flatToks p)) := by
    rw [hpad]
    exact a2b64_encodePad (sepJoin (flatToks p)) hbuff256
  have hutf8 : utf8Decode (sepJoin (flatToks p)) = some (sepJoin (flatToks p)) :=
    utf8Decode_ascii _ hjchars
  have hsplit : pySplit 30 (sepJoin (flatToks p)) = flatToks p :=
    sepJoin_split (flatToks p) (flatToks_ne_nil p hpne) fun t ht => (htokgood t ht).1
  have hdec : resource_id_tokens ((b64encodePad (sepJoin (flatToks p))).filter
      fun c => c != 61) = .ok (flattenPairs p) := by
    rw [rit_text _ _ _ hpadded_ascii ha2b hutf8, hsplit]
    exact processBits_flatToks p hall
  rw [henc]
  simpa [Except.bind] using hdec

/-- C1 witness: a two-pair path with an integer and a string identifier
round-trips. -/
theorem C1_round_trip_witness :
    (get_resource_id_from_key (flattenPairs [([85], Atom.i 12), ([75], Atom.s [97])])).bind
      resource_id_tokens = .ok (flattenPairs [([85], Atom.i 12), ([75], Atom.s [97])]) :=
  C1_round_trip [([85], Atom.i 12), ([75], Atom.s [97])] (by decide)

/-- C1 counterexample: the path [("K", 0)] is well-formed in the claim's
sense (its only constraints are non-empty kind, and no separator or tag
bytes in strings), yet the round trip fails: Encode rejects the falsy
integer identifier 0 with `InvalidKeyException`, so no resource id is
produced at all. -/
theorem C1_round_trip_cex :
    specWellFormedB [([75], Atom.i 0)] = true ∧
    (get_resource_id_from_key (flattenPairs [([75], Atom.i 0)])).bind resource_id_tokens ≠
      .ok (flattenPairs [([75], Atom.i 0)]) := by
  constructor
  · decide
  · decide
